import Mathlib

/-!
Verification of the LegoDAO Decision Engine against its specification.

The repository ships only deployment and black-box test code for the engine
(the `DecisionEngine01` contract itself is not part of the repository), so the
engine is modelled here from the specification: the governance configuration,
the proposal record, the vote receipts, the pure state-classification rule,
and the three state-mutating operations `propose`, `castVote`, `execute`
(plus `cancel`), each returning an error and leaving state unchanged when a
precondition fails.

Addresses are modelled as natural numbers; token amounts and ledger heights
as natural numbers.  Ratios (`proposalThresholdRatio`, `quorumRatio`) are
modelled as percentages, so "weight ≥ ratio · supply" becomes
"weight * 100 ≥ pct * supply".
-/

/-- The lifecycle states of a proposal (spec §4.3 / §6). -/
inductive ProposalState
  | Pending
  | Active
  | Canceled
  | Defeated
  | Succeeded
  | Executed
deriving DecidableEq, Repr

/-- Errors of the engine (spec §7 taxonomy). -/
inductive EngineError
  | ThresholdNotMet
  | MalformedProposal
  | InvalidState
  | CallFailed
deriving DecidableEq, Repr

/-- Modelled from the spec: the revert reason strings of the engine.  Only the
underweight-proposer string is fixed by the spec (§4.2); the engine contract
carrying these strings is not in the repository. -/
def errorMessage : EngineError → String
  | .ThresholdNotMet => "proposer votes below proposal threshold"
  | .MalformedProposal => "malformed proposal"
  | .InvalidState => "invalid proposal state"
  | .CallFailed => "call failed"

/-- Immutable governance configuration (spec §3, ratios as percentages). -/
structure GovernanceConfig where
  proposalThresholdPct : Nat
  quorumPct : Nat
  votingPeriodBlocks : Nat
  proposalMaxOperations : Nat
deriving DecidableEq, Repr

/-- A stored proposal record (spec §3). -/
structure Proposal where
  id : Nat
  proposer : Nat
  targets : List Nat
  values : List Nat
  signatures : List String
  calldatas : List String
  description : String
  creationHeight : Nat
  startHeight : Nat
  endHeight : Nat
  forVotes : Nat
  againstVotes : Nat
  canceled : Bool
  executed : Bool
deriving DecidableEq, Repr

/-- A vote receipt for a (proposalId, voter) pair (spec §3); presence of the
record in the receipt list plays the role of the `hasVoted` flag. -/
structure VoteRec where
  pid : Nat
  voter : Nat
  support : Bool
  votes : Nat
deriving DecidableEq, Repr

/-- Modelled from the spec: the weight-source token (§4.1, snapshot-balance
variant; the token contract is not in the repository).  Each account has an
ordered sequence of (height, balance) checkpoints. -/
structure Token where
  balances : Nat → List (Nat × Nat)
  totalSupply : Nat

/-- Modelled from the spec: the weight of an account at a historical height is
the balance of the latest checkpoint whose height does not exceed the queried
height (spec §4.1); 0 when no checkpoint qualifies. -/
def weightAt (cps : List (Nat × Nat)) (h : Nat) : Nat :=
  cps.foldl (fun acc c => if c.1 ≤ h then c.2 else acc) 0

/-- `weightOf(voter, atHeight)` of the VotingWeightOracle (spec §4.1). -/
def weightOf (t : Token) (voter : Nat) (h : Nat) : Nat :=
  weightAt (t.balances voter) h

/-- Modelled from the spec: the pure state-classification rule of the
GovernanceStateMachine (spec §4.3), recomputed on every query; the engine
contract is not in the repository.  The executed flag is checked first, then
canceled, then the height window, then the vote/quorum outcome. -/
def proposalState (cfg : GovernanceConfig) (supply : Nat) (p : Proposal)
    (currentHeight : Nat) : ProposalState :=
  if p.executed then .Executed
  else if p.canceled then .Canceled
  else if currentHeight < p.startHeight then .Pending
  else if currentHeight < p.endHeight then .Active
  else if p.againstVotes < p.forVotes ∧ cfg.quorumPct * supply ≤ p.forVotes * 100 then
    .Succeeded
  else .Defeated

/-- The state-classification rule exactly as the specification words it: a
relation between the stored fields, the current height and the resulting
state, written as six disjoint characterizations. -/
def stateRule (cfg : GovernanceConfig) (supply : Nat) (p : Proposal)
    (h : Nat) (s : ProposalState) : Prop :=
  (s = .Executed ↔ p.executed = true) ∧
  (s = .Canceled ↔ p.executed = false ∧ p.canceled = true) ∧
  (s = .Pending ↔ p.executed = false ∧ p.canceled = false ∧ h < p.startHeight) ∧
  (s = .Active ↔ p.executed = false ∧ p.canceled = false ∧
      p.startHeight ≤ h ∧ h < p.endHeight) ∧
  (s = .Succeeded ↔ p.executed = false ∧ p.canceled = false ∧
      p.startHeight ≤ h ∧ p.endHeight ≤ h ∧
      p.againstVotes < p.forVotes ∧ cfg.quorumPct * supply ≤ p.forVotes * 100) ∧
  (s = .Defeated ↔ p.executed = false ∧ p.canceled = false ∧
      p.startHeight ≤ h ∧ p.endHeight ≤ h ∧
      ¬(p.againstVotes < p.forVotes ∧ cfg.quorumPct * supply ≤ p.forVotes * 100))

instance (cfg : GovernanceConfig) (supply : Nat) (p : Proposal) (h : Nat)
    (s : ProposalState) : Decidable (stateRule cfg supply p h s) := by
  unfold stateRule; infer_instance

/-- C1: the state function satisfies the spec's fixed classification rule, and
the rule determines the state uniquely (so two queries at the same height
agree). -/
theorem state_follows_fixed_rule (cfg : GovernanceConfig) (supply : Nat)
    (p : Proposal) (h : Nat) :
    stateRule cfg supply p h (proposalState cfg supply p h) ∧
    ∀ s : ProposalState, stateRule cfg supply p h s →
      s = proposalState cfg supply p h := by
  have hchar : stateRule cfg supply p h (proposalState cfg supply p h) := by
    unfold proposalState
    split_ifs with h1 h2 h3 h4 h5
    · simp [stateRule, h1]
    · simp [stateRule, h1, h2]
    · simp [stateRule, h1, h2, h3]; try omega
    · simp [stateRule, h1, h2, h3, h4]; try omega
    · simp [stateRule, h1, h2, h3, h4, h5]; try omega
    · simp [stateRule, h1, h2, h3, h4, h5]; try omega
  refine ⟨hchar, fun s hs => ?_⟩
  revert hs
  unfold proposalState
  split_ifs with h1 h2 h3 h4 h5 <;> intro hs
  · exact hs.1.mpr h1
  · exact hs.2.1.mpr ⟨by simpa using h1, h2⟩
  · exact hs.2.2.1.mpr ⟨by simpa using h1, by simpa using h2, h3⟩
  · exact hs.2.2.2.1.mpr
      ⟨by simpa using h1, by simpa using h2, Nat.le_of_not_lt h3, h4⟩
  · exact hs.2.2.2.2.1.mpr
      ⟨by simpa using h1, by simpa using h2, Nat.le_of_not_lt h3,
        Nat.le_of_not_lt h4, h5.1, h5.2⟩
  · exact hs.2.2.2.2.2.mpr
      ⟨by simpa using h1, by simpa using h2, Nat.le_of_not_lt h3,
        Nat.le_of_not_lt h4, h5⟩

/-- C1 witness: a concrete query classified by the rule. -/
theorem state_follows_fixed_rule_witness :
    (ProposalState.Active : ProposalState) =
      proposalState ⟨1, 4, 10, 10⟩ 100
        ⟨1, 7, [3], [0], ["s"], ["d"], "x", 0, 1, 11, 0, 0, false, false⟩ 5 :=
  (state_follows_fixed_rule ⟨1, 4, 10, 10⟩ 100
      ⟨1, 7, [3], [0], ["s"], ["d"], "x", 0, 1, 11, 0, 0, false, false⟩ 5).2
    .Active (by decide)

/-- Notifications emitted by the engine (spec §6). -/
inductive Notification
  | ProposalCreated (id proposer : Nat) (targets values : List Nat)
      (signatures calldatas : List String)
      (startHeight endHeight : Nat) (description : String)
  | ProposalExecuted (id : Nat)
deriving DecidableEq, Repr

/-- The full stored state of the engine: proposal counter, stored proposals,
and vote receipts. -/
structure EngineState where
  proposalCount : Nat
  proposals : List Proposal
  receipts : List VoteRec
deriving DecidableEq, Repr

/-- The engine before any operation. -/
def initState : EngineState := ⟨0, [], []⟩

/-- Look up a stored proposal by id. -/
def findProposal (st : EngineState) (pid : Nat) : Option Proposal :=
  st.proposals.find? (fun p => p.id == pid)

/-- Whether a receipt already exists for (proposalId, voter). -/
def hasReceipt (st : EngineState) (pid voter : Nat) : Bool :=
  st.receipts.any (fun r => r.pid == pid && r.voter == voter)

/-- Replace the proposal with the given id by its image under `f`. -/
def updateProposal (ps : List Proposal) (pid : Nat) (f : Proposal → Proposal) :
    List Proposal :=
  ps.map (fun p => if p.id == pid then f p else p)

/-- Modelled from the spec: the activation delay between creation and the
start of voting (spec §3, "startHeight = creationHeight + activation delay";
the tests advance one block between propose and castVote). -/
def votingDelay : Nat := 1

/-- Modelled from the spec: `propose` of the ProposalRegistry (spec §4.2); the
engine contract is not in the repository.  Checks the proposer threshold
against the weight at the latest settled height, then the structural
constraints, then allocates the next sequential id and stores the proposal. -/
def propose (cfg : GovernanceConfig) (t : Token) (st : EngineState)
    (proposer : Nat) (targets values : List Nat)
    (sigs datas : List String) (descr : String) (h : Nat) :
    Except EngineError (EngineState × List Notification) :=
  if weightOf t proposer (h - 1) * 100 < cfg.proposalThresholdPct * t.totalSupply then
    .error .ThresholdNotMet
  else if targets.length ≠ values.length ∨ targets.length ≠ sigs.length ∨
      targets.length ≠ datas.length then
    .error .MalformedProposal
  else if targets.length = 0 then
    .error .MalformedProposal
  else if cfg.proposalMaxOperations < targets.length then
    .error .MalformedProposal
  else
    let pid := st.proposalCount + 1
    let start := h + votingDelay
    let pend := start + cfg.votingPeriodBlocks
    let p : Proposal :=
      { id := pid, proposer := proposer, targets := targets, values := values,
        signatures := sigs, calldatas := datas, description := descr,
        creationHeight := h, startHeight := start, endHeight := pend,
        forVotes := 0, againstVotes := 0, canceled := false, executed := false }
    .ok ({ proposalCount := pid, proposals := st.proposals ++ [p],
           receipts := st.receipts },
         [.ProposalCreated pid proposer targets values sigs datas start pend descr])

/-- Modelled from the spec: `castVote` of the VoteTally (spec §4.4); the
engine contract is not in the repository.  Requires the proposal to exist and
be Active and the (proposalId, voter) pair to be unvoted; records the weight
at the proposal's start height. -/
def castVote (cfg : GovernanceConfig) (t : Token) (st : EngineState)
    (voter pid : Nat) (support : Bool) (h : Nat) :
    Except EngineError (EngineState × List Notification) :=
  match findProposal st pid with
  | none => .error .InvalidState
  | some p =>
    if proposalState cfg t.totalSupply p h ≠ .Active then .error .InvalidState
    else if hasReceipt st pid voter then .error .InvalidState
    else
      let w := weightOf t voter p.startHeight
      .ok ({ st with
             proposals := updateProposal st.proposals pid (fun q =>
               if support then { q with forVotes := q.forVotes + w }
               else { q with againstVotes := q.againstVotes + w }),
             receipts := st.receipts ++ [⟨pid, voter, support, w⟩] }, [])

/-- Modelled from the spec: `execute` of the Executor (spec §4.5); the engine
contract is not in the repository.  Requires the proposal to exist and be
Succeeded; the outcome of the outbound call legs is external and supplied as
`callOk` (leg `i` succeeds when `callOk i`).  All legs must succeed, else the
whole execution fails as one `CallFailed` with no state change. -/
def execute (cfg : GovernanceConfig) (t : Token) (callOk : Nat → Bool)
    (st : EngineState) (pid : Nat) (h : Nat) :
    Except EngineError (EngineState × List Notification) :=
  match findProposal st pid with
  | none => .error .InvalidState
  | some p =>
    if proposalState cfg t.totalSupply p h ≠ .Succeeded then .error .InvalidState
    else if (List.range p.targets.length).all (fun i => callOk i) then
      .ok ({ st with
             proposals := updateProposal st.proposals pid
               (fun q => { q with executed := true }) },
           [.ProposalExecuted pid])
    else .error .CallFailed

/-- Modelled from the spec: cancellation of a Pending or Active proposal by an
authorized party (spec §5; authorization itself is external policy and not
modelled). -/
def cancel (cfg : GovernanceConfig) (t : Token) (st : EngineState)
    (pid : Nat) (h : Nat) :
    Except EngineError (EngineState × List Notification) :=
  match findProposal st pid with
  | none => .error .InvalidState
  | some p =>
    let s := proposalState cfg t.totalSupply p h
    if s = .Pending ∨ s = .Active then
      .ok ({ st with
             proposals := updateProposal st.proposals pid
               (fun q => { q with canceled := true }) }, [])
    else .error .InvalidState

/-- A ledger-mutating action of the engine, with the external call outcomes
for execute supplied as data. -/
inductive GovAction
  | propose (proposer : Nat) (targets values : List Nat)
      (sigs datas : List String) (descr : String)
  | castVote (voter pid : Nat) (support : Bool)
  | execute (pid : Nat) (callOk : Nat → Bool)
  | cancel (pid : Nat)

/-- Run one action at a given height over a given token state. -/
def runAction (cfg : GovernanceConfig) (t : Token) (st : EngineState)
    (a : GovAction) (h : Nat) :
    Except EngineError (EngineState × List Notification) :=
  match a with
  | .propose proposer targets values sigs datas descr =>
      propose cfg t st proposer targets values sigs datas descr h
  | .castVote voter pid support => castVote cfg t st voter pid support h
  | .execute pid callOk => execute cfg t callOk st pid h
  | .cancel pid => cancel cfg t st pid h

/-- The state after an action: a rejected action leaves the state unchanged
(spec §7, every rejection leaves state byte-for-byte unchanged). -/
def applyAction (cfg : GovernanceConfig) (t : Token) (st : EngineState)
    (a : GovAction) (h : Nat) : EngineState :=
  match runAction cfg t st a h with
  | .ok (st2, _) => st2
  | .error _ => st

/-- The reachable engine states: the initial state, closed under running any
action at any height over any token state. -/
inductive Reachable (cfg : GovernanceConfig) : EngineState → Prop
  | init : Reachable cfg initState
  | step (s : EngineState) (t : Token) (a : GovAction) (h : Nat) :
      Reachable cfg s → Reachable cfg (applyAction cfg t s a h)

/-- Sum of the recorded vote weights of the receipts of a proposal id on one
support side. -/
def sumVotes (rs : List VoteRec) (pid : Nat) (s : Bool) : Nat :=
  ((rs.filter (fun r => r.pid == pid && r.support == s)).map
    (fun r => r.votes)).sum

lemma sumVotes_append_one (rs : List VoteRec) (r : VoteRec) (pid : Nat)
    (s : Bool) :
    sumVotes (rs ++ [r]) pid s =
      sumVotes rs pid s + (if r.pid = pid ∧ r.support = s then r.votes else 0) := by
  unfold sumVotes
  rw [List.filter_append, List.map_append, List.sum_append]
  congr 1
  by_cases h1 : r.pid = pid
  · by_cases h2 : r.support = s
    · simp [List.filter_singleton, h1, h2]
    · simp [List.filter_singleton, h1, h2]
  · simp [List.filter_singleton, h1]

lemma sumVotes_eq_zero (rs : List VoteRec) (pid : Nat) (s : Bool)
    (h : ∀ r ∈ rs, r.pid ≠ pid) : sumVotes rs pid s = 0 := by
  unfold sumVotes
  have hnil : rs.filter (fun r => r.pid == pid && r.support == s) = [] := by
    rw [List.filter_eq_nil_iff]
    intro r hr
    simp [h r hr]
  simp [hnil]

lemma updateProposal_ids (ps : List Proposal) (pid : Nat)
    (f : Proposal → Proposal) (hf : ∀ q, (f q).id = q.id) :
    (updateProposal ps pid f).map (fun p => p.id) = ps.map (fun p => p.id) := by
  unfold updateProposal
  rw [List.map_map]
  apply List.map_congr_left
  intro q _
  simp only [Function.comp_apply]
  by_cases h : (q.id == pid) = true
  · rw [if_pos h]; exact hf q
  · rw [if_neg h]

lemma mem_updateProposal {ps : List Proposal} {pid : Nat}
    {f : Proposal → Proposal} {q2 : Proposal}
    (h : q2 ∈ updateProposal ps pid f) :
    ∃ q ∈ ps, q2 = if q.id == pid then f q else q := by
  obtain ⟨q, hq, he⟩ := List.mem_map.mp h
  exact ⟨q, hq, he.symm⟩

/-- The inductive invariant of the engine: proposal ids are positive, bounded
by the counter and unique; every receipt points at a stored proposal; receipt
keys are unique; tallies equal the receipt sums. -/
def EngineInv (st : EngineState) : Prop :=
  (∀ p ∈ st.proposals, 1 ≤ p.id ∧ p.id ≤ st.proposalCount) ∧
  (st.proposals.map (fun p => p.id)).Nodup ∧
  (∀ r ∈ st.receipts, ∃ p ∈ st.proposals, p.id = r.pid) ∧
  (st.receipts.map (fun r => (r.pid, r.voter))).Nodup ∧
  (∀ p ∈ st.proposals,
    p.forVotes = sumVotes st.receipts p.id true ∧
    p.againstVotes = sumVotes st.receipts p.id false)

lemma engineInv_init : EngineInv initState := by
  unfold EngineInv initState; simp

lemma engineInv_propose {cfg : GovernanceConfig} {t : Token} {st : EngineState}
    {proposer : Nat} {targets values : List Nat} {sigs datas : List String}
    {descr : String} {h : Nat} {st2 : EngineState} {ns : List Notification}
    (hInv : EngineInv st)
    (hok : propose cfg t st proposer targets values sigs datas descr h =
      .ok (st2, ns)) : EngineInv st2 := by
  obtain ⟨hb, hnd, hrp, hrk, htally⟩ := hInv
  unfold propose at hok
  split_ifs at hok with h1 h2 h3 h4
  simp only [Except.ok.injEq, Prod.mk.injEq] at hok
  obtain ⟨h5, h6⟩ := hok
  subst h5
  subst h6
  refine ⟨?_, ?_, ?_, hrk, ?_⟩
  · intro p hp
    rcases List.mem_append.mp hp with hp | hp
    · have := hb p hp; simp; omega
    · simp at hp; subst hp; simp
  · simp only [List.map_append]
    rw [List.nodup_append]
    refine ⟨hnd, List.nodup_singleton _, ?_⟩
    intro x hx hx2
    simp at hx2
    obtain ⟨p, hp, hpid⟩ := List.mem_map.mp hx
    have := hb p hp
    omega
  · intro r hr
    obtain ⟨p, hp, hpid⟩ := hrp r hr
    exact ⟨p, List.mem_append_left _ hp, hpid⟩
  · intro p hp
    rcases List.mem_append.mp hp with hp | hp
    · exact htally p hp
    · simp at hp; subst hp
      have hne : ∀ r ∈ st.receipts, r.pid ≠ st.proposalCount + 1 := by
        intro r hr
        obtain ⟨p2, hp2, hpid2⟩ := hrp r hr
        have := hb p2 hp2
        omega
      exact ⟨(sumVotes_eq_zero _ _ _ hne).symm, (sumVotes_eq_zero _ _ _ hne).symm⟩

lemma engineInv_update_flags {st : EngineState} (hInv : EngineInv st) (pid : Nat)
    (f : Proposal → Proposal)
    (hid : ∀ q, (f q).id = q.id)
    (hfor : ∀ q, (f q).forVotes = q.forVotes)
    (hagainst : ∀ q, (f q).againstVotes = q.againstVotes) :
    EngineInv { st with proposals := updateProposal st.proposals pid f } := by
  obtain ⟨hb, hnd, hrp, hrk, htally⟩ := hInv
  refine ⟨?_, ?_, ?_, hrk, ?_⟩
  · intro p2 hp2
    obtain ⟨q, hq, he⟩ := mem_updateProposal hp2
    have hpid : p2.id = q.id := by
      rw [he]; split
      · exact hid q
      · rfl
    have := hb q hq
    simp only [hpid]
    exact this
  · rw [updateProposal_ids _ _ _ hid]
    exact hnd
  · intro r hr
    obtain ⟨p, hp, hpid⟩ := hrp r hr
    refine ⟨if p.id == pid then f p else p, List.mem_map_of_mem _ hp, ?_⟩
    split
    · rw [hid]; exact hpid
    · exact hpid
  · intro p2 hp2
    obtain ⟨q, hq, he⟩ := mem_updateProposal hp2
    have h1 : p2.id = q.id := by
      rw [he]; split
      · exact hid q
      · rfl
    have h2 : p2.forVotes = q.forVotes := by
      rw [he]; split
      · exact hfor q
      · rfl
    have h3 : p2.againstVotes = q.againstVotes := by
      rw [he]; split
      · exact hagainst q
      · rfl
    rw [h1, h2, h3]
    exact htally q hq

lemma engineInv_castVote_core {st : EngineState} (hInv : EngineInv st)
    {p : Proposal} {pid voter : Nat} {support : Bool} {w : Nat}
    (hfind : st.proposals.find? (fun q => q.id == pid) = some p)
    (hnorec : hasReceipt st pid voter = false) :
    EngineInv { st with
      proposals := updateProposal st.proposals pid (fun q =>
        if support then { q with forVotes := q.forVotes + w }
        else { q with againstVotes := q.againstVotes + w }),
      receipts := st.receipts ++ [⟨pid, voter, support, w⟩] } := by
  obtain ⟨hb, hnd, hrp, hrk, htally⟩ := hInv
  have hp : p ∈ st.proposals := List.mem_of_find?_eq_some hfind
  have hpid : p.id = pid := by simpa using List.find?_some hfind
  have hnore : ∀ r ∈ st.receipts, ¬(r.pid = pid ∧ r.voter = voter) := by
    intro r hr hcon
    have h2 : hasReceipt st pid voter = true := by
      unfold hasReceipt
      exact List.any_eq_true.mpr ⟨r, hr, by simp [hcon.1, hcon.2]⟩
    rw [h2] at hnorec
    exact Bool.noConfusion hnorec
  refine ⟨?_, ?_, ?_, ?_, ?_⟩
  · intro p2 hp2
    obtain ⟨q, hq, he⟩ := mem_updateProposal hp2
    have hqid : p2.id = q.id := by
      rw [he]
      split
      · split <;> rfl
      · rfl
    simp only [hqid]
    exact hb q hq
  · rw [show ({ st with
        proposals := updateProposal st.proposals pid (fun q =>
          if support then { q with forVotes := q.forVotes + w }
          else { q with againstVotes := q.againstVotes + w }),
        receipts := st.receipts ++ [⟨pid, voter, support, w⟩] } :
          EngineState).proposals = updateProposal st.proposals pid (fun q =>
          if support then { q with forVotes := q.forVotes + w }
          else { q with againstVotes := q.againstVotes + w }) from rfl]
    rw [updateProposal_ids _ _ _ (fun q => by cases support <;> rfl)]
    exact hnd
  · intro r hr
    rcases List.mem_append.mp hr with hr | hr
    · obtain ⟨p2, hp2, hpid2⟩ := hrp r hr
      refine ⟨_, List.mem_map_of_mem _ hp2, ?_⟩
      split
      · split <;> exact hpid2
      · exact hpid2
    · simp only [List.mem_singleton] at hr
      subst hr
      refine ⟨_, List.mem_map_of_mem _ hp, ?_⟩
      rw [if_pos (by simp [hpid])]
      split <;> exact hpid
  · rw [show ({ st with
        proposals := updateProposal st.proposals pid (fun q =>
          if support then { q with forVotes := q.forVotes + w }
          else { q with againstVotes := q.againstVotes + w }),
        receipts := st.receipts ++ [⟨pid, voter, support, w⟩] } :
          EngineState).receipts = st.receipts ++ [⟨pid, voter, support, w⟩]
        from rfl]
    rw [List.map_append, List.nodup_append]
    refine ⟨hrk, List.nodup_singleton _, ?_⟩
    intro k hk hk2
    simp only [List.map_cons, List.map_nil, List.mem_singleton] at hk2
    obtain ⟨r, hr, hkey⟩ := List.mem_map.mp hk
    subst hk2
    exact hnore r hr ⟨congrArg Prod.fst hkey, congrArg Prod.snd hkey⟩
  · intro p2 hp2
    obtain ⟨q, hq, he⟩ := mem_updateProposal hp2
    by_cases hqp : (q.id == pid) = true
    · have hqid : q.id = pid := by simpa using hqp
      have hqeq : q = p := List.inj_on_of_nodup_map hnd hq hp (by rw [hqid, hpid])
      subst hqeq
      rw [if_pos hqp] at he
      obtain ⟨ht1, ht2⟩ := htally q hq
      cases support with
      | true =>
        rw [if_pos rfl] at he
        subst he
        constructor
        · show q.forVotes + w = sumVotes (st.receipts ++ [⟨pid, voter, true, w⟩]) q.id true
          rw [sumVotes_append_one, if_pos ⟨hqid.symm, rfl⟩, ← ht1]
        · show q.againstVotes = sumVotes (st.receipts ++ [⟨pid, voter, true, w⟩]) q.id false
          rw [sumVotes_append_one, if_neg (by simp), Nat.add_zero]
          exact ht2
      | false =>
        rw [if_neg (by simp)] at he
        subst he
        constructor
        · show q.forVotes = sumVotes (st.receipts ++ [⟨pid, voter, false, w⟩]) q.id true
          rw [sumVotes_append_one, if_neg (by simp), Nat.add_zero]
          exact ht1
        · show q.againstVotes + w = sumVotes (st.receipts ++ [⟨pid, voter, false, w⟩]) q.id false
          rw [sumVotes_append_one, if_pos ⟨hqid.symm, rfl⟩, ← ht2]
    · have hne : q.id ≠ pid := by simpa using hqp
      rw [if_neg hqp] at he
      subst he
      obtain ⟨ht1, ht2⟩ := htally p2 hq
      constructor
      · show p2.forVotes = sumVotes (st.receipts ++ [⟨pid, voter, support, w⟩]) p2.id true
        rw [sumVotes_append_one, if_neg (fun hcon => hne hcon.1.symm), Nat.add_zero]
        exact ht1
      · show p2.againstVotes = sumVotes (st.receipts ++ [⟨pid, voter, support, w⟩]) p2.id false
        rw [sumVotes_append_one, if_neg (fun hcon => hne hcon.1.symm), Nat.add_zero]
        exact ht2

lemma engineInv_castVote {cfg : GovernanceConfig} {t : Token} {st : EngineState}
    {voter pid : Nat} {support : Bool} {h : Nat} {st2 : EngineState}
    {ns : List Notification}
    (hInv : EngineInv st)
    (hok : castVote cfg t st voter pid support h = .ok (st2, ns)) :
    EngineInv st2 := by
  cases hfind : findProposal st pid with
  | none =>
    simp only [castVote, hfind] at hok
    exact Except.noConfusion hok
  | some p =>
    simp only [castVote, hfind] at hok
    by_cases hact : proposalState cfg t.totalSupply p h ≠ ProposalState.Active
    · rw [if_pos hact] at hok
      exact Except.noConfusion hok
    · rw [if_neg hact] at hok
      by_cases hrec : hasReceipt st pid voter = true
      · rw [if_pos hrec] at hok
        exact Except.noConfusion hok
      · rw [if_neg hrec] at hok
        simp only [Except.ok.injEq, Prod.mk.injEq] at hok
        obtain ⟨h5, h6⟩ := hok
        subst h5
        subst h6
        exact engineInv_castVote_core hInv hfind (Bool.not_eq_true _ |>.mp hrec)

lemma engineInv_execute {cfg : GovernanceConfig} {t : Token}
    {callOk : Nat → Bool} {st : EngineState} {pid : Nat} {h : Nat}
    {st2 : EngineState} {ns : List Notification}
    (hInv : EngineInv st)
    (hok : execute cfg t callOk st pid h = .ok (st2, ns)) : EngineInv st2 := by
  cases hfind : findProposal st pid with
  | none =>
    simp only [execute, hfind] at hok
    exact Except.noConfusion hok
  | some p =>
    simp only [execute, hfind] at hok
    by_cases h1 : proposalState cfg t.totalSupply p h ≠ ProposalState.Succeeded
    · rw [if_pos h1] at hok
      exact Except.noConfusion hok
    · rw [if_neg h1] at hok
      by_cases h2 : ((List.range p.targets.length).all fun i => callOk i) = true
      · rw [if_pos h2] at hok
        simp only [Except.ok.injEq, Prod.mk.injEq] at hok
        obtain ⟨h5, h6⟩ := hok
        subst h5
        subst h6
        exact engineInv_update_flags hInv pid _ (fun q => rfl) (fun q => rfl)
          (fun q => rfl)
      · rw [if_neg h2] at hok
        exact Except.noConfusion hok

lemma engineInv_cancel {cfg : GovernanceConfig} {t : Token} {st : EngineState}
    {pid : Nat} {h : Nat} {st2 : EngineState} {ns : List Notification}
    (hInv : EngineInv st)
    (hok : cancel cfg t st pid h = .ok (st2, ns)) : EngineInv st2 := by
  cases hfind : findProposal st pid with
  | none =>
    simp only [cancel, hfind] at hok
    exact Except.noConfusion hok
  | some p =>
    simp only [cancel, hfind] at hok
    by_cases h1 : proposalState cfg t.totalSupply p h = ProposalState.Pending ∨
        proposalState cfg t.totalSupply p h = ProposalState.Active
    · rw [if_pos h1] at hok
      simp only [Except.ok.injEq, Prod.mk.injEq] at hok
      obtain ⟨h5, h6⟩ := hok
      subst h5
      subst h6
      exact engineInv_update_flags hInv pid _ (fun q => rfl) (fun q => rfl)
        (fun q => rfl)
    · rw [if_neg h1] at hok
      exact Except.noConfusion hok

lemma engineInv_applyAction (cfg : GovernanceConfig) (t : Token)
    (st : EngineState) (a : GovAction) (h : Nat) (hInv : EngineInv st) :
    EngineInv (applyAction cfg t st a h) := by
  cases a with
  | propose pr tg vl sg dt ds =>
    simp only [applyAction, runAction]
    cases hres : propose cfg t st pr tg vl sg dt ds h with
    | error e => exact hInv
    | ok x =>
      obtain ⟨st2, ns⟩ := x
      exact engineInv_propose hInv hres
  | castVote voter pid s =>
    simp only [applyAction, runAction]
    cases hres : castVote cfg t st voter pid s h with
    | error e => exact hInv
    | ok x =>
      obtain ⟨st2, ns⟩ := x
      exact engineInv_castVote hInv hres
  | execute pid callOk =>
    simp only [applyAction, runAction]
    cases hres : execute cfg t callOk st pid h with
    | error e => exact hInv
    | ok x =>
      obtain ⟨st2, ns⟩ := x
      exact engineInv_execute hInv hres
  | cancel pid =>
    simp only [applyAction, runAction]
    cases hres : cancel cfg t st pid h with
    | error e => exact hInv
    | ok x =>
      obtain ⟨st2, ns⟩ := x
      exact engineInv_cancel hInv hres

lemma engineInv_reachable {cfg : GovernanceConfig} {st : EngineState}
    (h : Reachable cfg st) : EngineInv st := by
  induction h with
  | init => exact engineInv_init
  | step s t a hh _ ih => exact engineInv_applyAction cfg t s a hh ih

/-- Concrete configuration fixture mirroring the repository's example:
threshold 1%, quorum 4%, voting period 10 blocks, at most 10 operations. -/
def cfg0 : GovernanceConfig := ⟨1, 4, 10, 10⟩

/-- Concrete token fixture: account 7 holds 50 from height 0; supply 100. -/
def tok0 : Token := ⟨fun v => if v = 7 then [(0, 50)] else [], 100⟩

/-- Fixture action: account 7 proposes a single call. -/
def actPropose : GovAction := .propose 7 [3] [0] ["s"] ["d"] "x"

/-- Fixture action: account 7 votes for proposal 1. -/
def actVote : GovAction := .castVote 7 1 true

/-- Engine state after the fixture proposal at height 0. -/
def stFixA : EngineState := applyAction cfg0 tok0 initState actPropose 0

/-- Engine state after the fixture vote at height 5. -/
def stFixB : EngineState := applyAction cfg0 tok0 stFixA actVote 5

lemma stFixB_reachable : Reachable cfg0 stFixB :=
  Reachable.step stFixA tok0 actVote 5
    (Reachable.step initState tok0 actPropose 0 Reachable.init)

/-- The stored proposal of the fixture after the vote. -/
def propFix : Proposal :=
  ⟨1, 7, [3], [0], ["s"], ["d"], "x", 0, 1, 11, 50, 0, false, false⟩

/-- The stored receipt of the fixture vote. -/
def recFix : VoteRec := ⟨1, 7, true, 50⟩

/-- C3: in every reachable state, every stored proposal's `forVotes`
accumulator equals the sum of the `votes` of that proposal's receipts with
support = for, `againstVotes` likewise over support = against, and stored
proposals have pairwise distinct ids, so a receipt (keyed by one proposal id)
contributes to the total of at most one proposal. -/
theorem tallies_match_receipt_sums (cfg : GovernanceConfig) (st : EngineState)
    (hr : Reachable cfg st) :
    (∀ p ∈ st.proposals,
      p.forVotes = sumVotes st.receipts p.id true ∧
      p.againstVotes = sumVotes st.receipts p.id false) ∧
    (∀ p ∈ st.proposals, ∀ q ∈ st.proposals, p.id = q.id → p = q) := by
  have hInv := engineInv_reachable hr
  refine ⟨hInv.2.2.2.2, fun p hp q hq he => ?_⟩
  exact List.inj_on_of_nodup_map hInv.2.1 hp hq he

/-- C3 witness: the fixture's tallies after one for-vote of weight 50. -/
theorem tallies_match_receipt_sums_witness :
    propFix.forVotes = sumVotes stFixB.receipts propFix.id true ∧
    propFix.againstVotes = sumVotes stFixB.receipts propFix.id false :=
  (tallies_match_receipt_sums cfg0 stFixB stFixB_reachable).1 propFix (by decide)

/-- C4: in every reachable state at most one receipt exists for each
(proposalId, voter) pair, and once a receipt exists every further castVote
call for the same pair fails with InvalidState and leaves the whole engine
state (the receipt included) unchanged. -/
theorem second_vote_rejected (cfg : GovernanceConfig) (st : EngineState)
    (hr : Reachable cfg st) (r : VoteRec) (hmem : r ∈ st.receipts) :
    (∀ r2 ∈ st.receipts, r2.pid = r.pid → r2.voter = r.voter → r2 = r) ∧
    ∀ (t : Token) (s : Bool) (h : Nat),
      castVote cfg t st r.voter r.pid s h = .error .InvalidState ∧
      applyAction cfg t st (.castVote r.voter r.pid s) h = st := by
  have hInv := engineInv_reachable hr
  constructor
  · intro r2 h2 hpid hvoter
    exact List.inj_on_of_nodup_map hInv.2.2.2.1 h2 hmem (by rw [hpid, hvoter])
  · intro t s h
    obtain ⟨p, hp, hpid⟩ := hInv.2.2.1 r hmem
    have hfound : ∃ q, findProposal st r.pid = some q := by
      cases hf : findProposal st r.pid with
      | some q => exact ⟨q, rfl⟩
      | none =>
        exfalso
        have hnone := List.find?_eq_none.mp hf p hp
        simp [hpid] at hnone
    obtain ⟨q, hfind⟩ := hfound
    have hhas : hasReceipt st r.pid r.voter = true := by
      unfold hasReceipt
      exact List.any_eq_true.mpr ⟨r, hmem, by simp⟩
    have hcv : castVote cfg t st r.voter r.pid s h = .error .InvalidState := by
      simp only [castVote, hfind]
      by_cases hact : proposalState cfg t.totalSupply q h ≠ ProposalState.Active
      · rw [if_pos hact]
      · rw [if_neg hact, if_pos hhas]
    refine ⟨hcv, ?_⟩
    simp only [applyAction, runAction, hcv]

/-- C4 witness: re-voting the fixture pair is rejected with InvalidState. -/
theorem second_vote_rejected_witness :
    castVote cfg0 tok0 stFixB recFix.voter recFix.pid true 6 =
      .error .InvalidState :=
  ((second_vote_rejected cfg0 stFixB stFixB_reachable recFix (by decide)).2
    tok0 true 6).1

lemma executed_false_of_succeeded {cfg : GovernanceConfig} {supply : Nat}
    {p : Proposal} {h : Nat}
    (hs : proposalState cfg supply p h = .Succeeded) : p.executed = false := by
  by_contra hc
  rw [proposalState, if_pos (by simpa using hc)] at hs
  exact ProposalState.noConfusion hs

lemma find?_updateProposal (ps : List Proposal) (pid : Nat)
    (f : Proposal → Proposal) (hf : ∀ q, (f q).id = q.id) :
    (updateProposal ps pid f).find? (fun q => q.id == pid) =
      (ps.find? (fun q => q.id == pid)).map f := by
  induction ps with
  | nil => rfl
  | cons a as ih =>
    show ((if a.id == pid then f a else a) :: updateProposal as pid f).find? _ = _
    by_cases ha : (a.id == pid) = true
    · rw [if_pos ha]
      have hfa : ((f a).id == pid) = true := by rw [hf]; exact ha
      have hL : List.find? (fun q => q.id == pid)
          (f a :: updateProposal as pid f) = some (f a) :=
        List.find?_cons_of_pos _ hfa
      have hR : List.find? (fun q => q.id == pid) (a :: as) = some a :=
        List.find?_cons_of_pos _ ha
      rw [hL, hR]
      rfl
    · rw [if_neg ha]
      have hL : List.find? (fun q => q.id == pid)
          (a :: updateProposal as pid f) =
          List.find? (fun q => q.id == pid) (updateProposal as pid f) :=
        List.find?_cons_of_neg _ ha
      have hR : List.find? (fun q => q.id == pid) (a :: as) =
          List.find? (fun q => q.id == pid) as :=
        List.find?_cons_of_neg _ ha
      rw [hL, hR]
      exact ih

/-- C2: execute succeeds only when the proposal is currently Succeeded; on
success the executed flag (previously false) is set, a single
ProposalExecuted notification is emitted, the proposal is thereafter
classified Executed at every height, and every later execute call for it
fails with InvalidState. -/
theorem execute_only_from_succeeded (cfg : GovernanceConfig) (t : Token)
    (callOk : Nat → Bool) (st : EngineState) (pid : Nat) (h : Nat)
    (st2 : EngineState) (ns : List Notification)
    (hok : execute cfg t callOk st pid h = .ok (st2, ns)) :
    (∃ p, findProposal st pid = some p ∧
      proposalState cfg t.totalSupply p h = .Succeeded ∧
      p.executed = false ∧
      findProposal st2 pid = some { p with executed := true } ∧
      (∀ h2, proposalState cfg t.totalSupply { p with executed := true } h2 =
        .Executed)) ∧
    ns = [.ProposalExecuted pid] ∧
    ∀ (t2 : Token) (callOk2 : Nat → Bool) (h2 : Nat),
      execute cfg t2 callOk2 st2 pid h2 = .error .InvalidState := by
  cases hfind : findProposal st pid with
  | none =>
    simp only [execute, hfind] at hok
    exact Except.noConfusion hok
  | some p =>
    simp only [execute, hfind] at hok
    by_cases h1 : proposalState cfg t.totalSupply p h ≠ ProposalState.Succeeded
    · rw [if_pos h1] at hok
      exact Except.noConfusion hok
    · rw [if_neg h1] at hok
      have hsucc : proposalState cfg t.totalSupply p h = .Succeeded := by
        by_contra hc
        exact h1 hc
      by_cases h2 : ((List.range p.targets.length).all fun i => callOk i) = true
      · rw [if_pos h2] at hok
        simp only [Except.ok.injEq, Prod.mk.injEq] at hok
        obtain ⟨h5, h6⟩ := hok
        subst h5
        subst h6
        have hfind2 : findProposal { st with proposals := updateProposal st.proposals pid (fun q => { q with executed := true }) } pid = some { p with executed := true } := by
          show (updateProposal st.proposals pid
              (fun q => { q with executed := true })).find?
              (fun q => q.id == pid) = some { p with executed := true }
          rw [find?_updateProposal st.proposals pid
            (fun q => { q with executed := true }) (fun q => rfl)]
          rw [show st.proposals.find? (fun q => q.id == pid) = some p from hfind]
          rfl
        refine ⟨⟨p, rfl, hsucc, executed_false_of_succeeded hsucc, hfind2, ?_⟩,
          rfl, ?_⟩
        · intro h3
          rfl
        · intro t2 callOk2 h3
          simp only [execute, hfind2]
          rw [if_pos (by simp [proposalState])]
      · rw [if_neg h2] at hok
        exact Except.noConfusion hok

/-- Engine state after executing the fixture proposal at height 20. -/
def stFixC : EngineState :=
  applyAction cfg0 tok0 stFixB (.execute 1 (fun _ => true)) 20

/-- C2 witness: executing the fixture succeeds once; the re-invocation fails
with InvalidState. -/
theorem execute_only_from_succeeded_witness :
    execute cfg0 tok0 (fun _ => true) stFixC 1 21 = .error .InvalidState :=
  (execute_only_from_succeeded cfg0 tok0 (fun _ => true) stFixB 1 20 stFixC
    [.ProposalExecuted 1] (by rfl)).2.2 tok0 (fun _ => true) 21

/-- C8: rejected operations change nothing: whenever an action returns an
error, the post-action state is the pre-action state.  When some call leg of
an execute on a Succeeded proposal fails, the whole execution is reported as
one CallFailed, the executed flag stays false and the state is untouched, and
a retry whose legs all succeed returns ok with the ProposalExecuted
notification. -/
theorem rejection_leaves_state_unchanged (cfg : GovernanceConfig) (t : Token)
    (st : EngineState) (a : GovAction) (h : Nat) :
    (∀ e, runAction cfg t st a h = .error e → applyAction cfg t st a h = st) ∧
    ∀ p pid callOk,
      findProposal st pid = some p →
      proposalState cfg t.totalSupply p h = .Succeeded →
      ((List.range p.targets.length).all fun i => callOk i) = false →
      execute cfg t callOk st pid h = .error .CallFailed ∧
      applyAction cfg t st (.execute pid callOk) h = st ∧
      p.executed = false ∧
      ∀ callOk2, ((List.range p.targets.length).all fun i => callOk2 i) = true →
        ∃ st2, execute cfg t callOk2 st pid h =
          .ok (st2, [.ProposalExecuted pid]) := by
  constructor
  · intro e he
    simp only [applyAction, he]
  · intro p pid callOk hfind hsucc hfail
    have hex : execute cfg t callOk st pid h = .error .CallFailed := by
      simp only [execute, hfind]
      rw [if_neg (by simp [hsucc]), if_neg (by simp [hfail])]
    refine ⟨hex, ?_, executed_false_of_succeeded hsucc, ?_⟩
    · simp only [applyAction, runAction, hex]
    · intro callOk2 hall
      refine ⟨⟨st.proposalCount,
        updateProposal st.proposals pid (fun q => { q with executed := true }),
        st.receipts⟩, ?_⟩
      simp only [execute, hfind]
      rw [if_neg (by simp [hsucc]), if_pos hall]

/-- C8 witness: a failing call leg on the Succeeded fixture yields CallFailed
and leaves the state unchanged. -/
theorem rejection_leaves_state_unchanged_witness :
    execute cfg0 tok0 (fun _ => false) stFixB 1 20 = .error .CallFailed ∧
    applyAction cfg0 tok0 stFixB (.execute 1 (fun _ => false)) 20 = stFixB := by
  have h := (rejection_leaves_state_unchanged cfg0 tok0 stFixB
      (.execute 1 (fun _ => false)) 20).2 propFix 1 (fun _ => false)
      (by rfl) (by rfl) (by rfl)
  exact ⟨h.1, h.2.1⟩

/-- C5: with quorum ratio 4% and total weight supply `supply`, a stored
proposal (not executed, not canceled, with a well-formed voting window) whose
forVotes are strictly below 4% of the supply is classified Defeated at every
height at or past its end height, even when forVotes exceed againstVotes. -/
theorem below_quorum_defeated (cfg : GovernanceConfig) (supply : Nat)
    (p : Proposal) (h : Nat)
    (hq : cfg.quorumPct = 4)
    (hexec : p.executed = false) (hcanc : p.canceled = false)
    (hwf : p.startHeight ≤ p.endHeight)
    (hend : p.endHeight ≤ h)
    (hquorum : p.forVotes * 100 < 4 * supply) :
    proposalState cfg supply p h = .Defeated := by
  unfold proposalState
  rw [if_neg (by simp [hexec]), if_neg (by simp [hcanc]),
    if_neg (by omega), if_neg (by omega), if_neg (by rw [hq]; omega)]

/-- C5 witness: 3 of 100 supply in favor, 1 against, past the end height. -/
theorem below_quorum_defeated_witness :
    proposalState cfg0 100
      ⟨1, 7, [3], [0], ["s"], ["d"], "x", 0, 1, 11, 3, 1, false, false⟩ 11 =
      .Defeated :=
  below_quorum_defeated cfg0 100
    ⟨1, 7, [3], [0], ["s"], ["d"], "x", 0, 1, 11, 3, 1, false, false⟩ 11
    rfl rfl rfl (by decide) (by decide) (by decide)

/-- C6: with threshold ratio 1%, a proposer whose weight is exactly 1% of the
total weight supply passes the threshold check and a structurally well-formed
proposal is stored, while a proposer whose weight is strictly below 1% is
rejected with ThresholdNotMet — whose reason string is "proposer votes below
proposal threshold" — and the rejection stores nothing: the state is
unchanged. -/
theorem proposal_threshold_boundary (cfg : GovernanceConfig) (t : Token)
    (st : EngineState) (proposer : Nat) (targets values : List Nat)
    (sigs datas : List String) (descr : String) (h : Nat)
    (hpct : cfg.proposalThresholdPct = 1) :
    (weightOf t proposer (h - 1) * 100 = t.totalSupply →
      targets.length = values.length → targets.length = sigs.length →
      targets.length = datas.length → targets.length ≠ 0 →
      targets.length ≤ cfg.proposalMaxOperations →
      ∃ st2 ns, propose cfg t st proposer targets values sigs datas descr h =
          .ok (st2, ns) ∧
        ∃ p ∈ st2.proposals, p.id = st.proposalCount + 1 ∧
          p.proposer = proposer ∧ p.forVotes = 0 ∧ p.againstVotes = 0 ∧
          p.canceled = false ∧ p.executed = false) ∧
    (weightOf t proposer (h - 1) * 100 < t.totalSupply →
      propose cfg t st proposer targets values sigs datas descr h =
        .error .ThresholdNotMet ∧
      applyAction cfg t st (.propose proposer targets values sigs datas descr)
        h = st ∧
      errorMessage .ThresholdNotMet =
        "proposer votes below proposal threshold") := by
  constructor
  · intro hw hlv hls hld hnz hmax
    have hprop : propose cfg t st proposer targets values sigs datas descr h =
        .ok (⟨st.proposalCount + 1,
          st.proposals ++ [⟨st.proposalCount + 1, proposer, targets, values,
            sigs, datas, descr, h, h + votingDelay,
            h + votingDelay + cfg.votingPeriodBlocks, 0, 0, false, false⟩],
          st.receipts⟩,
          [.ProposalCreated (st.proposalCount + 1) proposer targets values
            sigs datas (h + votingDelay)
            (h + votingDelay + cfg.votingPeriodBlocks) descr]) := by
      unfold propose
      rw [if_neg (by rw [hpct]; omega), if_neg (by omega), if_neg hnz,
        if_neg (by omega)]
    exact ⟨_, _, hprop, _,
      List.mem_append_right _ (List.mem_singleton.mpr rfl),
      rfl, rfl, rfl, rfl, rfl, rfl⟩
  · intro hlt
    have hprop : propose cfg t st proposer targets values sigs datas descr h =
        .error .ThresholdNotMet := by
      unfold propose
      rw [if_pos (by rw [hpct]; omega)]
    exact ⟨hprop, by simp only [applyAction, runAction, hprop], rfl⟩

/-- C6 witness: weight 1 of supply 100 (exactly 1%) passes the threshold;
weight 1 of supply 200 (strictly below 1%) is rejected with ThresholdNotMet. -/
theorem proposal_threshold_boundary_witness :
    propose cfg0 ⟨fun v => if v = 9 then [(0, 1)] else [], 200⟩ initState 9
      [3] [0] ["s"] ["d"] "x" 1 = .error .ThresholdNotMet :=
  ((proposal_threshold_boundary cfg0
      ⟨fun v => if v = 9 then [(0, 1)] else [], 200⟩ initState 9
      [3] [0] ["s"] ["d"] "x" 1 rfl).2 (by decide)).1

lemma foldl_weight_filter (cps : List (Nat × Nat)) (h : Nat) (acc : Nat) :
    cps.foldl (fun a c => if c.1 ≤ h then c.2 else a) acc =
      (cps.filter (fun c => c.1 ≤ h)).foldl
        (fun a c => if c.1 ≤ h then c.2 else a) acc := by
  induction cps generalizing acc with
  | nil => rfl
  | cons c cs ih =>
    by_cases hc : c.1 ≤ h
    · have hf : (c :: cs).filter (fun c => decide (c.1 ≤ h)) =
          c :: cs.filter (fun c => decide (c.1 ≤ h)) :=
        List.filter_cons_of_pos (by simpa using hc)
      rw [List.foldl_cons, hf, List.foldl_cons]
      exact ih _
    · have hf : (c :: cs).filter (fun c => decide (c.1 ≤ h)) =
          cs.filter (fun c => decide (c.1 ≤ h)) :=
        List.filter_cons_of_neg (by simpa using hc)
      rw [List.foldl_cons, hf, if_neg hc]
      exact ih acc

/-- The weight at a height only depends on the checkpoints at or before that
height: later checkpoints (and hence the current balance) are never read. -/
lemma weightAt_congr (cps1 cps2 : List (Nat × Nat)) (h : Nat)
    (hagree : cps1.filter (fun c => c.1 ≤ h) = cps2.filter (fun c => c.1 ≤ h)) :
    weightAt cps1 h = weightAt cps2 h := by
  unfold weightAt
  rw [foldl_weight_filter cps1 h 0, foldl_weight_filter cps2 h 0, hagree]

/-- C7: the weight a vote records — in the receipt and added to the tally —
is the voter's weight pinned at the proposal's start height: two executions
over weight sources that agree on the voter's checkpoint history up to the
start height (and on the total supply) run castVote to identical results,
whatever balance changes happen after the start height; and a successful
castVote appends exactly the receipt carrying weightOf(voter, startHeight)
and adds that same weight to the matching tally. -/
theorem vote_weight_pinned (cfg : GovernanceConfig) (st : EngineState)
    (voter pid : Nat) (s : Bool) (h : Nat) (p : Proposal)
    (hfind : findProposal st pid = some p) (t1 t2 : Token)
    (hsup : t1.totalSupply = t2.totalSupply)
    (hagree : (t1.balances voter).filter (fun c => c.1 ≤ p.startHeight) =
      (t2.balances voter).filter (fun c => c.1 ≤ p.startHeight)) :
    castVote cfg t1 st voter pid s h = castVote cfg t2 st voter pid s h ∧
    ∀ st2 ns, castVote cfg t1 st voter pid s h = .ok (st2, ns) →
      st2.receipts =
        st.receipts ++ [⟨pid, voter, s, weightOf t1 voter p.startHeight⟩] ∧
      st2.proposals = updateProposal st.proposals pid (fun q =>
        if s then
          { q with forVotes := q.forVotes + weightOf t1 voter p.startHeight }
        else
          { q with
            againstVotes := q.againstVotes + weightOf t1 voter p.startHeight }) := by
  have hw : weightOf t1 voter p.startHeight = weightOf t2 voter p.startHeight :=
    weightAt_congr _ _ _ hagree
  constructor
  · simp only [castVote, hfind, hsup, hw]
  · intro st2 ns hok
    simp only [castVote, hfind] at hok
    by_cases hact : proposalState cfg t1.totalSupply p h ≠ ProposalState.Active
    · rw [if_pos hact] at hok
      exact Except.noConfusion hok
    · rw [if_neg hact] at hok
      by_cases hrec : hasReceipt st pid voter = true
      · rw [if_pos hrec] at hok
        exact Except.noConfusion hok
      · rw [if_neg hrec] at hok
        simp only [Except.ok.injEq, Prod.mk.injEq] at hok
        obtain ⟨h5, h6⟩ := hok
        subst h5
        exact ⟨rfl, rfl⟩

/-- A second token fixture agreeing with tok0 up to height 1 but with a large
balance change at height 2 (after the fixture proposal's start height). -/
def tok0b : Token := ⟨fun v => if v = 7 then [(0, 50), (2, 500)] else [], 100⟩

/-- The stored proposal of the fixture before any vote. -/
def propFixA : Proposal :=
  ⟨1, 7, [3], [0], ["s"], ["d"], "x", 0, 1, 11, 0, 0, false, false⟩

/-- C7 witness: voting with the original and with the later-manipulated
balance history records the same thing. -/
theorem vote_weight_pinned_witness :
    castVote cfg0 tok0 stFixA 7 1 true 5 = castVote cfg0 tok0b stFixA 7 1 true 5 :=
  (vote_weight_pinned cfg0 stFixA 7 1 true 5 propFixA (by rfl) tok0 tok0b rfl
    (by decide)).1

/-- The owner state of the controlled execution account (the Safe). -/
structure SafeState where
  owners : List Nat
  threshold : Nat
deriving DecidableEq, Repr

/-- Modelled from the spec: the Safe contract and the `safeAddOwner` helper
(in scripts/utils) are not in the repository; per the deployment script's
call `safeAddOwner(safe, prevOwner, newOwnerAddress, threshold)` and the
test's expectation on `getOwners`, adding an owner puts the new owner at the
head of the owner list and sets the signing threshold; `prevOwner` only
locates the linked-list position and plays no role for a head insertion. -/
def safeAddOwner (s : SafeState) (prevOwner newOwner threshold : Nat) :
    SafeState :=
  ⟨newOwner :: s.owners, threshold⟩

/-- Modelled from the spec: the deployment procedure of
src/deploy/ExampleDAOWithMiniMeToken.ts — the Safe starts owned by the
deployer alone as a 1/1 multisig, then the Decision Engine is added as a
signer with threshold kept at 1 ("a signer of a 1/2 multisig — the other
owner is the deployer"). -/
def deployExampleDAO (deployer engine : Nat) : SafeState :=
  safeAddOwner ⟨[deployer], 1⟩ deployer engine 1

/-- An account can execute a call through the Safe on its own: it is an
owner and the signing threshold needs at most one signature. -/
def canExecuteAlone (s : SafeState) (a : Nat) : Prop :=
  a ∈ s.owners ∧ s.threshold ≤ 1

/-- C9: after the deployment procedure the Safe has exactly the two owners
[decision engine, deployer] with signing threshold 1, so either owner alone —
the deployer included, without any governance vote — can execute calls
through the shared account. -/
theorem safe_owned_by_engine_and_deployer (deployer engine : Nat) :
    (deployExampleDAO deployer engine).owners = [engine, deployer] ∧
    (deployExampleDAO deployer engine).owners.length = 2 ∧
    (deployExampleDAO deployer engine).threshold = 1 ∧
    canExecuteAlone (deployExampleDAO deployer engine) engine ∧
    canExecuteAlone (deployExampleDAO deployer engine) deployer := by
  refine ⟨rfl, rfl, rfl, ?_, ?_⟩ <;>
    simp [canExecuteAlone, deployExampleDAO, safeAddOwner]

/-- The integer construction arguments of DecisionEngine01 as the deployment
script passes them: safe address, token address, proposing threshold, quorum,
voting period, max operations, token type tag. -/
structure DeployConfig where
  safeAddress : Nat
  tokenAddress : Nat
  proposingThreshold : Nat
  quorum : Nat
  votingPeriod : Nat
  maxOperations : Nat
  tokenType : Nat
deriving DecidableEq, Repr

/-- Modelled from the spec: the `quorumVotes()` accessor of DecisionEngine01
(the contract is not in the repository).  Per the black-box tests the value
is the integer quorum configuration scaled to 18-decimal token units (config
4 reads back as parseEther("4")), fixed at construction; the total weight
supply at the time of the query (passed here as an explicit argument) has no
influence — the tests read 4·10^18 while the minted supply is still 0. -/
def quorumVotes (c : DeployConfig) (supplyAtQuery : Nat) : Nat :=
  c.quorum * 10 ^ 18

/-- Modelled from the spec: the `proposalThreshold()` accessor of
DecisionEngine01, likewise an absolute 18-decimal amount fixed at
construction (threshold config 1 reads back as parseEther("1")), independent
of the supply at query time. -/
def proposalThreshold (c : DeployConfig) (supplyAtQuery : Nat) : Nat :=
  c.proposingThreshold * 10 ^ 18

/-- C10: quorumVotes() and proposalThreshold() return the construction-time
integer config values scaled by 10^18 — quorum config 4 yields 4·10^18,
threshold config 1 yields 1·10^18 — and the returned values do not depend on
the total weight supply at the time of the query. -/
theorem accessors_absolute_amounts :
    (∀ c : DeployConfig, ∀ s1 s2 : Nat,
      quorumVotes c s1 = quorumVotes c s2 ∧
      proposalThreshold c s1 = proposalThreshold c s2) ∧
    (∀ c : DeployConfig, ∀ s : Nat, c.quorum = 4 →
      quorumVotes c s = 4 * 10 ^ 18) ∧
    (∀ c : DeployConfig, ∀ s : Nat, c.proposingThreshold = 1 →
      proposalThreshold c s = 1 * 10 ^ 18) := by
  refine ⟨fun c s1 s2 => ⟨rfl, rfl⟩, fun c s hq => ?_, fun c s ht => ?_⟩
  · simp [quorumVotes, hq]
  · simp [proposalThreshold, ht]

/-- C10 witness: the example config read back at supply 0. -/
theorem accessors_absolute_amounts_witness :
    quorumVotes ⟨1, 2, 1, 4, 10, 10, 1⟩ 0 = 4 * 10 ^ 18 ∧
    proposalThreshold ⟨1, 2, 1, 4, 10, 10, 1⟩ 0 = 1 * 10 ^ 18 :=
  ⟨accessors_absolute_amounts.2.1 ⟨1, 2, 1, 4, 10, 10, 1⟩ 0 rfl,
   accessors_absolute_amounts.2.2 ⟨1, 2, 1, 4, 10, 10, 1⟩ 0 rfl⟩
